import Mathlib

/-!
Shallow embedding of the dokka service (a Flask/Celery geo-processing
service) and verification of its specification claims.

The embedding follows the Python sources:
* `service_api/models.py` — the data model (Task, Point, Distance rows);
* `service_api/tasks.py` — the dispatcher, distance pipeline and the
  sequential reverse-geocode pipeline;
* `service_api/services/geo.py` — the haversine function and the geocoder
  client wrapper;
* `service_api/domain/get_result.py` — the result query / status reducer.

Database tables are modelled as Lists of record structures; the SQL queries
with `ORDER BY id` are modelled on tables whose rows are kept in strictly
increasing id order (expressed by a `List.Pairwise` hypothesis in theorems).
The external geocoding service is an oracle `g : ℚ → ℚ → GeoOutcome`;
floating point coordinates are idealised as rationals, and the real-valued
haversine computation is idealised over `ℝ`.
-/

namespace Dokka

/-- Task lifecycle statuses, mirroring `TaskStatus` in `models.py`. -/
inductive TaskStatus where
  | pending
  | running
  | completed
  | failed
deriving DecidableEq, Repr

/-- String value of a status, mirroring the Python `enum.StrEnum` values. -/
def TaskStatus.value : TaskStatus → String
  | .pending => "pending"
  | .running => "running"
  | .completed => "completed"
  | .failed => "failed"

/-- Task types, mirroring `TaskType` in `models.py`. -/
inductive TaskType where
  | reverse
  | distance
deriving DecidableEq, Repr

/-- One row of the `task` table (`Task` in `models.py`). -/
structure TaskRec where
  id : Nat
  task_type : TaskType
  status : TaskStatus
  upload_uuid : String
deriving DecidableEq, Repr

/-- One row of the `point` table (`Point` in `models.py`); the POINT
geometry is represented by its latitude/longitude pair. -/
structure PointRec where
  id : Nat
  name : String
  lat : ℚ
  lon : ℚ
  address : Option String
  upload_uuid : String
deriving DecidableEq, Repr

/-- One row of the `distance` table (`Distance` in `models.py`); the two
geometry snapshots are represented by their coordinate pairs. -/
structure DistanceRec where
  id : Nat
  name_a : String
  name_b : String
  a_lat : ℚ
  a_lon : ℚ
  b_lat : ℚ
  b_lon : ℚ
  distance : Option ℝ
  upload_uuid : String

/-- Behaviour of one call to the external Nominatim geocoding service for a
given coordinate: a location with an address, a response with no location,
one of the two classified geopy exceptions (`GeocoderTimedOut`,
`GeocoderServiceError`), or an unclassified exception that the wrapper in
`geo.py` does not catch. -/
inductive GeoOutcome where
  | located (addr : String)
  | noLocation
  | timedOut
  | serviceError
  | fatal
deriving DecidableEq, Repr

/-- The address value that `reverse_geocode` produces for a non-fatal
outcome (`None` is the unresolved/null address). -/
def geoAddr : GeoOutcome → Option String
  | .located a => some a
  | .noLocation => some "Address not found"
  | .timedOut => none
  | .serviceError => none
  | .fatal => none

/-- `reverse_geocode` from `services/geo.py`: returns the location's
address when one is found, the literal string "Address not found" when the
service responds without a location, and `none` when the call raises
`GeocoderTimedOut` or `GeocoderServiceError` (both caught).  Any other
exception propagates, modelled by `Except.error`. -/
def reverse_geocode (g : ℚ → ℚ → GeoOutcome) (lat lon : ℚ) :
    Except String (Option String) :=
  match g lat lon with
  | GeoOutcome.located a => Except.ok (some a)
  | GeoOutcome.noLocation => Except.ok (some "Address not found")
  | GeoOutcome.timedOut => Except.ok none
  | GeoOutcome.serviceError => Except.ok none
  | GeoOutcome.fatal => Except.error "unhandled geocoder exception"

/-- Batch size used by both pipelines (`BATCH_SIZE` / `batch_size` /
`page_size` = 1000 in `tasks.py`). -/
def page_size : Nat := 1000

/-- Degrees-to-radians conversion (`np.radians`). -/
noncomputable def deg2rad (x : ℝ) : ℝ := x * (Real.pi / 180)

/-- `haversine_np` from `services/geo.py`: great-circle distance in meters
between two coordinates given in decimal degrees. -/
noncomputable def haversine_np (lon1 lat1 lon2 lat2 : ℝ) : ℝ :=
  let rlon1 := deg2rad lon1
  let rlat1 := deg2rad lat1
  let rlon2 := deg2rad lon2
  let rlat2 := deg2rad lat2
  let dlon := rlon2 - rlon1
  let dlat := rlat2 - rlat1
  let a := Real.sin (dlat / 2) ^ 2 +
    Real.cos rlat1 * Real.cos rlat2 * Real.sin (dlon / 2) ^ 2
  let c := 2 * Real.arcsin (Real.sqrt a)
  6378137 * c

/-- The per-row update applied by `process_file_tasks` in `tasks.py`:
a `pending` or `failed` task is marked `running`, others are untouched. -/
def dispatch_row (t : TaskRec) : TaskRec :=
  if t.status = TaskStatus.pending ∨ t.status = TaskStatus.failed then
    { t with status := TaskStatus.running }
  else t

/-- `process_file_tasks` from `tasks.py`: scans for tasks with status
`pending` or `failed`, marks each of them `running`, and launches
`process_upload` once per distinct `upload_uuid` among them (the `ran_tasks`
set).  Returns the updated task table together with the list of scheduled
upload uuids in launch order. -/
def process_file_tasks (tasks : List TaskRec) : List TaskRec × List String :=
  let tasks_to_process := tasks.filter fun t =>
    decide (t.status = TaskStatus.pending ∨ t.status = TaskStatus.failed)
  let ran_tasks := tasks_to_process.foldl
    (fun acc t => if t.upload_uuid ∈ acc then acc else acc ++ [t.upload_uuid]) []
  (tasks.map dispatch_row, ran_tasks)

/-- Overall status reduction in `domain/get_result.py`: `failed` if any
task is failed, else `completed` if all tasks are completed and the task
list is non-empty (Python `and tasks` truthiness), else `running`. -/
def overall_status (tasks : List TaskRec) : String :=
  if tasks.any fun t => t.status == TaskStatus.failed then "failed"
  else if (tasks.all fun t => t.status == TaskStatus.completed) && !tasks.isEmpty
    then "completed"
  else "running"

/-- The overall-status rule as worded by the specification (for comparison
with `overall_status`): `failed` if any Task is failed; else `completed`
only if both Tasks exist (one per pipeline type) and both are completed;
else `running`. -/
def spec_overall_status (tasks : List TaskRec) : String :=
  if tasks.any fun t => t.status == TaskStatus.failed then "failed"
  else if (tasks.any fun t =>
        t.task_type == TaskType.distance && t.status == TaskStatus.completed) &&
      (tasks.any fun t =>
        t.task_type == TaskType.reverse && t.status == TaskStatus.completed) &&
      (tasks.all fun t => t.status == TaskStatus.completed)
    then "completed"
  else "running"

/-- The per-type statuses dictionary built by `get_result`. -/
structure StatusesData where
  distance_task : Option String
  reverse_geocode : Option String
deriving DecidableEq, Repr

/-- The JSON payload produced by `get_result`. -/
structure ResultRec where
  task_id : String
  status : String
  points : List (String × Option String)
  links : List (String × Option ℝ)
  statuses : StatusesData

/-- Effect of one entry of a `bulk_update_mappings(Point, ...)` call on one
row: if the mappings contain the row's id, its address is overwritten. -/
def apply_mapping (m : List (Nat × Option String)) (p : PointRec) : PointRec :=
  match m.lookup p.id with
  | some addr => { p with address := addr }
  | none => p

/-- `session.bulk_update_mappings(Point, update_mappings)`: rows named by
id in the mappings get their address overwritten, all other rows are
untouched. -/
def bulk_update_points (db : List PointRec)
    (m : List (Nat × Option String)) : List PointRec :=
  db.map (apply_mapping m)

/-- The WHERE clause of the paginated point query in
`reverse_geocode_points`: rows of the given upload beyond the cursor. -/
def rg_pred (u : String) (last : Nat) (p : PointRec) : Bool :=
  p.upload_uuid == u && decide (last < p.id)

/-- The paginated point query in `reverse_geocode_points`:
`filter(upload_uuid == u, id > last).order_by(id).limit(page_size)`.
The table is modelled as stored in id order (theorems carry a
`List.Pairwise` hypothesis), so `ORDER BY id` is the identity here. -/
def rg_query (db : List PointRec) (u : String) (last : Nat) : List PointRec :=
  (db.filter (rg_pred u last)).take page_size

/-- The inner per-batch loop of `reverse_geocode_points`: call the
geocoder once per point, in sequence, accumulating `(id, address)` update
mappings; an uncaught exception aborts the batch before anything is
committed. -/
def rg_process_batch (g : ℚ → ℚ → GeoOutcome) :
    List PointRec → Except String (List (Nat × Option String))
  | [] => Except.ok []
  | p :: ps =>
    match reverse_geocode g p.lat p.lon with
    | Except.error e => Except.error e
    | Except.ok addr =>
      match rg_process_batch g ps with
      | Except.error e => Except.error e
      | Except.ok rest => Except.ok ((p.id, addr) :: rest)

/-- A strict version of filter-length monotonicity: if `q` implies `p` on
the elements of `l` and some element of `l` satisfies `p` but not `q`, the
`q`-filter is strictly shorter than the `p`-filter.  (Stated as a `def` so
that the embedding's definitions, whose termination arguments need it, can
precede all theorems.) -/
def length_filter_le_of_imp {α : Type} (l : List α) (p q : α → Bool)
    (himp : ∀ x ∈ l, q x = true → p x = true) :
    (l.filter q).length ≤ (l.filter p).length := by
  induction l with
  | nil => simp
  | cons a tl ih =>
    have htl : ∀ x ∈ tl, q x = true → p x = true := fun x hx => himp x (by simp [hx])
    by_cases hq : q a = true
    · have hp : p a = true := himp a (by simp) hq
      simp [List.filter_cons, hq, hp]
      exact ih htl
    · by_cases hp : p a = true <;>
        simp [List.filter_cons, hq, hp] <;>
        [exact Nat.le_succ_of_le (ih htl); exact ih htl]

def length_filter_lt_of_mem {α : Type} (l : List α) (p q : α → Bool)
    (himp : ∀ x ∈ l, q x = true → p x = true)
    (x : α) (hx : x ∈ l) (hp : p x = true) (hq : q x = false) :
    (l.filter q).length < (l.filter p).length := by
  induction l with
  | nil => simp at hx
  | cons a tl ih =>
    have htl : ∀ y ∈ tl, q y = true → p y = true := fun y hy => himp y (by simp [hy])
    rcases List.mem_cons.mp hx with hax | hxtl
    · subst hax
      have hqa : q x = false := hq
      simp [List.filter_cons, hqa, hp]
      exact Nat.lt_succ_of_le (length_filter_le_of_imp tl p q htl)
    · have hlt := ih htl hxtl
      by_cases hqa : q a = true
      · have hpa : p a = true := himp a (by simp) hqa
        simpa [List.filter_cons, hqa, hpa] using hlt
      · by_cases hpa : p a = true <;> simp [List.filter_cons, hqa, hpa] <;> omega

/-- `apply_mapping` never changes id, name, coordinates or upload. -/
def apply_mapping_core (m : List (Nat × Option String)) (p : PointRec) :
    (apply_mapping m p).id = p.id ∧ (apply_mapping m p).name = p.name ∧
    (apply_mapping m p).lat = p.lat ∧ (apply_mapping m p).lon = p.lon ∧
    (apply_mapping m p).upload_uuid = p.upload_uuid := by
  unfold apply_mapping
  cases m.lookup p.id <;> simp

def rg_pred_apply_mapping (u : String) (last : Nat)
    (m : List (Nat × Option String)) (p : PointRec) :
    rg_pred u last (apply_mapping m p) = rg_pred u last p := by
  unfold rg_pred apply_mapping
  cases m.lookup p.id <;> rfl

/-- Filtering a mapped list by a predicate the map preserves keeps the
filter length. -/
def length_filter_map_eq {α : Type} (f : α → α) (p : α → Bool)
    (hp : ∀ x, p (f x) = p x) (l : List α) :
    ((l.map f).filter p).length = (l.filter p).length := by
  induction l with
  | nil => rfl
  | cons a tl ih =>
    by_cases hpa : p a = true <;>
      simp [List.filter_cons, hp, hpa, ih]

/-- `reverse_geocode_points` pagination loop from `tasks.py`: fetch the
next batch of at most `page_size` points past the cursor, geocode them
sequentially, commit the batch's address updates, advance the cursor to
the last processed id, and repeat until an empty batch.  The second
component is the `task_status` local: `completed` on a full scan,
`failed` when an exception escapes a batch. -/
def reverse_geocode_points_loop (g : ℚ → ℚ → GeoOutcome) (u : String)
    (db : List PointRec) (last : Nat) : List PointRec × TaskStatus :=
  let batch := rg_query db u last
  if hb : batch = [] then (db, TaskStatus.completed)
  else
    match rg_process_batch g batch with
    | Except.error _ => (db, TaskStatus.failed)
    | Except.ok ms =>
      reverse_geocode_points_loop g u (bulk_update_points db ms)
        ((batch.getLast hb).id)
termination_by (db.filter (rg_pred u last)).length
decreasing_by
  · have hL : (rg_query db u last).getLast hb ∈ rg_query db u last :=
      List.getLast_mem hb
    have hLf : (rg_query db u last).getLast hb ∈ db.filter (rg_pred u last) :=
      List.mem_of_mem_take hL
    have hLdb : (rg_query db u last).getLast hb ∈ db :=
      (List.mem_filter.mp hLf).1
    have hLpred : rg_pred u last ((rg_query db u last).getLast hb) = true :=
      (List.mem_filter.mp hLf).2
    have hlastlt : last < ((rg_query db u last).getLast hb).id := by
      have := hLpred
      unfold rg_pred at this
      simp only [Bool.and_eq_true, decide_eq_true_eq] at this
      exact this.2
    rw [bulk_update_points,
      length_filter_map_eq (apply_mapping ms)
        (rg_pred u ((rg_query db u last).getLast hb).id)
        (rg_pred_apply_mapping u ((rg_query db u last).getLast hb).id ms) db]
    apply length_filter_lt_of_mem db (rg_pred u last)
      (rg_pred u ((rg_query db u last).getLast hb).id) _
      ((rg_query db u last).getLast hb) hLdb hLpred
    · unfold rg_pred
      simp
    · intro x _ hx
      unfold rg_pred at hx ⊢
      simp only [Bool.and_eq_true, decide_eq_true_eq] at hx ⊢
      exact ⟨hx.1, Nat.lt_trans hlastlt hx.2⟩

/-- The per-row effect of the final Task update in
`reverse_geocode_points`: the filtered
`filter_by(task_type=reverse, status=running, upload_uuid=u)` update sets
the outcome status. -/
def mark_reverse_row (u : String) (st : TaskStatus) (t : TaskRec) : TaskRec :=
  if t.task_type = TaskType.reverse ∧ t.status = TaskStatus.running ∧
      t.upload_uuid = u then
    { t with status := st }
  else t

/-- The final Task update of `reverse_geocode_points` over the whole task
table. -/
def mark_reverse_task (u : String) (st : TaskStatus)
    (tasks : List TaskRec) : List TaskRec :=
  tasks.map (mark_reverse_row u st)

/-- `reverse_geocode_points` from `tasks.py`: run the sequential paginated
scan starting from cursor 0, then (in the `finally` block) write the
outcome status into the upload's `reverse` task if it is still running. -/
def reverse_geocode_points (g : ℚ → ℚ → GeoOutcome) (u : String)
    (db : List PointRec) (tasks : List TaskRec) :
    List PointRec × List TaskRec :=
  let r := reverse_geocode_points_loop g u db 0
  (r.1, mark_reverse_task u r.2 tasks)

/-- Outcome of one `calculate_distance_batch` unit of work, as observed by
the chord barrier: the unit either succeeded or terminated in unrecoverable
failure (retries exhausted). -/
inductive BatchResult where
  | success
  | failure
deriving DecidableEq, Repr

/-- The per-row effect of the Task update in
`finalize_distance_calculations`: the
`filter_by(task_type=distance, status=running, upload_uuid=u)` update sets
the status to `completed`. -/
def finalize_distance_row (u : String) (t : TaskRec) : TaskRec :=
  if t.task_type = TaskType.distance ∧ t.status = TaskStatus.running ∧
      t.upload_uuid = u then
    { t with status := TaskStatus.completed }
  else t

/-- `finalize_distance_calculations` from `tasks.py`: the chord callback.
It receives the list of child-task results but never inspects it, and
unconditionally marks the upload's still-running `distance` task
`completed`. -/
def finalize_distance_calculations (results : List BatchResult) (u : String)
    (tasks : List TaskRec) : List TaskRec :=
  tasks.map (finalize_distance_row u)

/-- The `INSERT INTO distance ... SELECT ... FROM point a JOIN point b ON
a.id < b.id WHERE a.upload_uuid = :upload_uuid` statement in
`calculate_distances`.  Note that, exactly as in the SQL, only `a` is
restricted to the upload: `b` ranges over the whole point table.  New rows
get fresh ids above the existing ones (SQL serial primary key). -/
def insert_distances (distances : List DistanceRec) (points : List PointRec)
    (u : String) : List DistanceRec :=
  let next := (distances.map (fun r => r.id)).foldl max 0 + 1
  let pairs := (points.filter fun a => a.upload_uuid == u).flatMap fun a =>
    (points.filter fun b => decide (a.id < b.id)).map fun b => (a, b)
  distances ++ pairs.enum.map fun ip =>
    { id := next + ip.1
      name_a := ip.2.1.name
      name_b := ip.2.2.name
      a_lat := ip.2.1.lat
      a_lon := ip.2.1.lon
      b_lat := ip.2.2.lat
      b_lon := ip.2.2.lon
      distance := none
      upload_uuid := ip.2.1.upload_uuid }

/-- The WHERE clause of the paginated distance query in
`calculate_distances`. -/
def dist_pred (u : String) (last : Nat) (r : DistanceRec) : Bool :=
  r.upload_uuid == u && decide (last < r.id)

/-- The pagination loop of `calculate_distances`: walk the distance rows of
the upload in id order with a cursor, emitting one batch of ids per page;
each batch becomes one `calculate_distance_batch.s(batch_ids)` signature. -/
def paginate_distance_batches (distances : List DistanceRec) (u : String)
    (last : Nat) : List (List Nat) :=
  match hb : (distances.filter (dist_pred u last)).take page_size with
  | [] => []
  | r :: rs =>
    ((r :: rs).map fun x => x.id) ::
      paginate_distance_batches distances u
        (((r :: rs).getLast (List.cons_ne_nil r rs)).id)
termination_by (distances.filter (dist_pred u last)).length
decreasing_by
  · have hL : ((r :: rs).getLast (List.cons_ne_nil r rs)) ∈ r :: rs :=
      List.getLast_mem (List.cons_ne_nil r rs)
    have hL2 : ((r :: rs).getLast (List.cons_ne_nil r rs)) ∈
        (distances.filter (dist_pred u last)).take page_size := by
      rw [hb]; exact hL
    have hLf := List.mem_of_mem_take hL2
    have hLdb := (List.mem_filter.mp hLf).1
    have hLpred := (List.mem_filter.mp hLf).2
    have hlastlt :
        last < (((r :: rs).getLast (List.cons_ne_nil r rs))).id := by
      unfold dist_pred at hLpred
      simp only [Bool.and_eq_true, decide_eq_true_eq] at hLpred
      exact hLpred.2
    apply length_filter_lt_of_mem distances (dist_pred u last) _ _
      ((r :: rs).getLast (List.cons_ne_nil r rs)) hLdb hLpred
    · unfold dist_pred
      simp
    · intro x _ hx
      unfold dist_pred at hx ⊢
      simp only [Bool.and_eq_true, decide_eq_true_eq] at hx ⊢
      exact ⟨hx.1, Nat.lt_trans hlastlt hx.2⟩

/-- `calculate_distance_batch` from `tasks.py` (success case): load the
batch's distance rows, compute each haversine distance from the two
coordinate snapshots, and bulk-update the `distance` column.  The Python
call is `haversine_np(geom_a.x, geom_a.y, geom_b.x, geom_b.y)`, i.e.
(lon_a, lat_a, lon_b, lat_b). -/
noncomputable def calculate_distance_batch (distances : List DistanceRec)
    (batch_ids : List Nat) : List DistanceRec :=
  distances.map fun r =>
    if r.id ∈ batch_ids then
      let d := haversine_np (r.a_lon : ℝ) (r.a_lat : ℝ) (r.b_lon : ℝ) (r.b_lat : ℝ)
      { r with distance := some d }
    else r

/-- The first two stages of `calculate_distances` from `tasks.py`: insert
the pair rows, then paginate them into batches of ids. -/
def calculate_distances (points : List PointRec) (distances : List DistanceRec)
    (u : String) : List DistanceRec × List (List Nat) :=
  let distances2 := insert_distances distances points u
  (distances2, paginate_distance_batches distances2 u 0)

/-- The whole distance pipeline of `tasks.py`: `calculate_distances`
generates pairs and batches; then — only when the batch list is non-empty
(`if batch_tasks:`) — a chord runs every `calculate_distance_batch` and
finally `finalize_distance_calculations`.  With an empty batch list the
chord is never created, so neither the batch work nor the finalize
callback runs. -/
noncomputable def run_distance_pipeline (points : List PointRec)
    (distances : List DistanceRec) (tasks : List TaskRec) (u : String) :
    List DistanceRec × List TaskRec :=
  let dres := calculate_distances points distances u
  if dres.2.isEmpty then (dres.1, tasks)
  else
    (dres.2.foldl calculate_distance_batch dres.1,
     finalize_distance_calculations (dres.2.map fun _ => BatchResult.success)
       u tasks)

/-- `get_result` from `domain/get_result.py`: collects the upload's points
and links, the per-type status map and the overall status. -/
def get_result (points : List PointRec) (distances : List DistanceRec)
    (tasks : List TaskRec) (upload_uuid : String) : ResultRec :=
  let pts := points.filter fun p => p.upload_uuid == upload_uuid
  let dists := distances.filter fun d => d.upload_uuid == upload_uuid
  let ts := tasks.filter fun t => t.upload_uuid == upload_uuid
  let statuses := ts.foldl
    (fun s t =>
      if t.task_type == TaskType.distance then
        { s with distance_task := some t.status.value }
      else if t.task_type == TaskType.reverse then
        { s with reverse_geocode := some t.status.value }
      else s)
    ⟨none, none⟩
  { task_id := upload_uuid
    status := overall_status ts
    points := pts.map fun p => (p.name, p.address)
    links := dists.map fun d => (d.name_a ++ d.name_b, d.distance)
    statuses := statuses }

/-! Concrete fixtures used by witness theorems. -/

/-- A small task table: one upload with a pending and a failed task, one
upload fully running/completed. -/
def wTasks : List TaskRec :=
  [⟨1, TaskType.distance, TaskStatus.pending, "u1"⟩,
   ⟨2, TaskType.reverse, TaskStatus.failed, "u1"⟩,
   ⟨3, TaskType.distance, TaskStatus.running, "u2"⟩,
   ⟨4, TaskType.reverse, TaskStatus.completed, "u2"⟩]

/-- Three points of one upload, in id order. -/
def wPoints : List PointRec :=
  [⟨1, "A", 0, 0, none, "u"⟩,
   ⟨2, "B", 1, 0, none, "u"⟩,
   ⟨3, "C", 2, 0, none, "u"⟩]

/-- A geocoder oracle that fails with a classified service error on the
point at latitude 1 and finds an address everywhere else. -/
def wGeo : ℚ → ℚ → GeoOutcome := fun lat _ =>
  if lat = 1 then GeoOutcome.serviceError else GeoOutcome.located "Khreshchatyk"

/-- A geocoder oracle that raises an unclassified exception on the point
at latitude 1. -/
def wGeoFatal : ℚ → ℚ → GeoOutcome := fun lat _ =>
  if lat = 1 then GeoOutcome.fatal else GeoOutcome.located "Khreshchatyk"

/-- The two running tasks of upload "u", as the dispatcher leaves them. -/
def wRunTasks : List TaskRec :=
  [⟨1, TaskType.reverse, TaskStatus.running, "u"⟩,
   ⟨2, TaskType.distance, TaskStatus.running, "u"⟩]

/-- Two uploads sharing the point table: "u1" owns points A and B, "u2"
owns point C (with the largest id). -/
def wMixedPoints : List PointRec :=
  [⟨1, "A", 0, 0, none, "u1"⟩,
   ⟨2, "B", 0, 1, none, "u1"⟩,
   ⟨3, "C", 1, 1, none, "u2"⟩]

/-- The scan never touches any column but `address`: relation between an
input point row and the corresponding output row. -/
def sameCore (p q : PointRec) : Prop :=
  q.id = p.id ∧ q.name = p.name ∧ q.lat = p.lat ∧ q.lon = p.lon ∧
    q.upload_uuid = p.upload_uuid

/-!
## Claim theorems
-/

/-- Unfolding of the cursor predicate into propositions. -/
theorem rg_pred_iff (u : String) (last : Nat) (p : PointRec) :
    rg_pred u last p = true ↔ p.upload_uuid = u ∧ last < p.id := by
  unfold rg_pred
  simp

theorem apply_mapping_of_lookup_none (m : List (Nat × Option String))
    (p : PointRec) (h : m.lookup p.id = none) : apply_mapping m p = p := by
  unfold apply_mapping
  rw [h]

theorem apply_mapping_of_lookup_some (m : List (Nat × Option String))
    (p : PointRec) (a : Option String) (h : m.lookup p.id = some a) :
    apply_mapping m p = { p with address := a } := by
  unfold apply_mapping
  rw [h]

/-- Looking up an id in the update mappings built from a list with
injective ids finds that point's entry. -/
theorem lookup_map_of_mem (f : PointRec → Option String) :
    ∀ (l : List PointRec), (∀ a ∈ l, ∀ b ∈ l, a.id = b.id → a = b) →
      ∀ p ∈ l, (l.map fun q => (q.id, f q)).lookup p.id = some (f p) := by
  intro l
  induction l with
  | nil => intro _ p hp; exact absurd hp (List.not_mem_nil p)
  | cons a tl ih =>
    intro hinj p hp
    simp only [List.map_cons, List.lookup_cons]
    by_cases hpq : p.id = a.id
    · have hpa : p = a := hinj p hp a (List.mem_cons_self a tl) hpq
      have hb : (p.id == a.id) = true := beq_iff_eq.mpr hpq
      simp only [hb]
      rw [hpa]
    · have hb : (p.id == a.id) = false := beq_eq_false_iff_ne.mpr hpq
      simp only [hb]
      have hptl : p ∈ tl := by
        rcases List.mem_cons.mp hp with rfl | h
        · exact absurd rfl hpq
        · exact h
      exact ih
        (fun x hx y hy => hinj x (List.mem_cons_of_mem a hx) y
          (List.mem_cons_of_mem a hy)) p hptl

/-- Looking up an id absent from the batch finds nothing. -/
theorem lookup_map_of_not_mem (f : PointRec → Option String) (k : Nat) :
    ∀ l : List PointRec, (∀ q ∈ l, q.id ≠ k) →
      (l.map fun q => (q.id, f q)).lookup k = none := by
  intro l
  induction l with
  | nil => intro _; rfl
  | cons a tl ih =>
    intro hne
    simp only [List.map_cons, List.lookup_cons]
    have hb : (k == a.id) = false :=
      beq_eq_false_iff_ne.mpr fun h =>
        hne a (List.mem_cons_self a tl) h.symm
    simp only [hb]
    exact ih fun q hq => hne q (List.mem_cons_of_mem a hq)

/-- In a table with strictly increasing ids, ids identify rows. -/
theorem pairwise_id_inj (db : List PointRec)
    (hsort : db.Pairwise (fun a b => a.id < b.id)) :
    ∀ a ∈ db, ∀ b ∈ db, a.id = b.id → a = b := by
  intro a ha b hb hab
  obtain ⟨i, hi, rfl⟩ := List.getElem_of_mem ha
  obtain ⟨j, hj, rfl⟩ := List.getElem_of_mem hb
  rcases Nat.lt_trichotomy i j with h | h | h
  · have := List.pairwise_iff_getElem.mp hsort i j hi hj h
    omega
  · subst h
    rfl
  · have := List.pairwise_iff_getElem.mp hsort j i hj hi h
    omega

/-- The last element of a nonempty id-sorted list has the maximal id. -/
theorem getLast_id_max (l : List PointRec) (hl : l ≠ [])
    (hp : l.Pairwise (fun a b => a.id < b.id)) :
    ∀ x ∈ l, x.id ≤ (l.getLast hl).id := by
  intro x hx
  obtain ⟨i, hi, rfl⟩ := List.getElem_of_mem hx
  rw [List.getLast_eq_getElem]
  rcases Nat.lt_trichotomy i (l.length - 1) with h | h | h
  · have := List.pairwise_iff_getElem.mp hp i (l.length - 1) hi (by omega) h
    omega
  · subst h
    rfl
  · omega

/-- A geocode batch with no unclassified failure succeeds and returns
exactly one update mapping per point, in order. -/
theorem rg_process_batch_ok (g : ℚ → ℚ → GeoOutcome) :
    ∀ l : List PointRec, (∀ q ∈ l, g q.lat q.lon ≠ GeoOutcome.fatal) →
      rg_process_batch g l =
        Except.ok (l.map fun q => (q.id, geoAddr (g q.lat q.lon))) := by
  intro l
  induction l with
  | nil => intro _; rfl
  | cons p ps ih =>
    intro hnf
    have hp := hnf p (List.mem_cons_self p ps)
    have hrg : reverse_geocode g p.lat p.lon =
        Except.ok (geoAddr (g p.lat p.lon)) := by
      unfold reverse_geocode geoAddr
      rcases hg : g p.lat p.lon <;> simp_all
    unfold rg_process_batch
    rw [hrg, ih fun q hq => hnf q (List.mem_cons_of_mem p hq)]
    rfl

/-- Conversely, a successful geocode batch contains no unclassified
failure and its mappings are exactly the per-point geocode results. -/
theorem rg_process_batch_ok_inv (g : ℚ → ℚ → GeoOutcome) :
    ∀ (l : List PointRec) (ms : List (Nat × Option String)),
      rg_process_batch g l = Except.ok ms →
      (∀ q ∈ l, g q.lat q.lon ≠ GeoOutcome.fatal) ∧
      ms = l.map fun q => (q.id, geoAddr (g q.lat q.lon)) := by
  intro l
  induction l with
  | nil =>
    intro ms h
    refine ⟨by simp, ?_⟩
    unfold rg_process_batch at h
    simpa using (Except.ok.inj h).symm
  | cons p ps ih =>
    intro ms h
    unfold rg_process_batch at h
    rcases hg : g p.lat p.lon with a | _ | _ | _ | _ <;>
      rw [show reverse_geocode g p.lat p.lon = _ from rfl] at h <;>
      simp only [reverse_geocode, hg] at h
    · rcases hrec : rg_process_batch g ps with e | rest
      · rw [hrec] at h; exact absurd h (by simp)
      · rw [hrec] at h
        obtain ⟨hnf, hms⟩ := ih rest hrec
        refine ⟨?_, ?_⟩
        · intro q hq
          rcases List.mem_cons.mp hq with rfl | hq2
          · rw [hg]; simp
          · exact hnf q hq2
        · have := Except.ok.inj h
          rw [← this, hms, List.map_cons, hg]
          rfl
    · rcases hrec : rg_process_batch g ps with e | rest
      · rw [hrec] at h; exact absurd h (by simp)
      · rw [hrec] at h
        obtain ⟨hnf, hms⟩ := ih rest hrec
        refine ⟨?_, ?_⟩
        · intro q hq
          rcases List.mem_cons.mp hq with rfl | hq2
          · rw [hg]; simp
          · exact hnf q hq2
        · have := Except.ok.inj h
          rw [← this, hms, List.map_cons, hg]
          rfl
    · rcases hrec : rg_process_batch g ps with e | rest
      · rw [hrec] at h; exact absurd h (by simp)
      · rw [hrec] at h
        obtain ⟨hnf, hms⟩ := ih rest hrec
        refine ⟨?_, ?_⟩
        · intro q hq
          rcases List.mem_cons.mp hq with rfl | hq2
          · rw [hg]; simp
          · exact hnf q hq2
        · have := Except.ok.inj h
          rw [← this, hms, List.map_cons, hg]
          rfl
    · rcases hrec : rg_process_batch g ps with e | rest
      · rw [hrec] at h; exact absurd h (by simp)
      · rw [hrec] at h
        obtain ⟨hnf, hms⟩ := ih rest hrec
        refine ⟨?_, ?_⟩
        · intro q hq
          rcases List.mem_cons.mp hq with rfl | hq2
          · rw [hg]; simp
          · exact hnf q hq2
        · have := Except.ok.inj h
          rw [← this, hms, List.map_cons, hg]
          rfl
    · exact absurd h (by simp)

/-- Rows returned by the paginated query belong to the table and satisfy
the cursor predicate. -/
theorem mem_rg_query (db : List PointRec) (u : String) (last : Nat)
    (x : PointRec) (hx : x ∈ rg_query db u last) :
    x ∈ db ∧ rg_pred u last x = true := by
  have := List.mem_of_mem_take hx
  exact List.mem_filter.mp this

/-- An empty query means no table row satisfies the cursor predicate. -/
theorem rg_query_eq_nil_filter (db : List PointRec) (u : String) (last : Nat)
    (hb : rg_query db u last = []) :
    db.filter (rg_pred u last) = [] := by
  unfold rg_query at hb
  cases hfa : db.filter (rg_pred u last) with
  | nil => rfl
  | cons a tl =>
    rw [hfa] at hb
    rw [show page_size = 999 + 1 from rfl, List.take_succ_cons] at hb
    exact absurd hb (by simp)

/-- The query of an id-sorted table is itself id-sorted. -/
theorem rg_query_pairwise (db : List PointRec) (u : String) (last : Nat)
    (hsort : db.Pairwise (fun a b => a.id < b.id)) :
    (rg_query db u last).Pairwise (fun a b => a.id < b.id) := by
  unfold rg_query
  exact List.Pairwise.sublist (List.take_sublist _ _) (hsort.filter _)

/-- Every table row satisfying the cursor predicate but not returned by
the (nonempty) query lies strictly beyond the query's last row. -/
theorem rg_query_separation (db : List PointRec) (u : String) (last : Nat)
    (hsort : db.Pairwise (fun a b => a.id < b.id))
    (hb : rg_query db u last ≠ [])
    (x : PointRec) (hpred : rg_pred u last x = true)
    (hxdb : x ∈ db) (hxnot : x ∉ rg_query db u last) :
    ((rg_query db u last).getLast hb).id < x.id := by
  have hF : (db.filter (rg_pred u last)).Pairwise (fun a b => a.id < b.id) :=
    hsort.filter _
  have hxF : x ∈ db.filter (rg_pred u last) :=
    List.mem_filter.mpr ⟨hxdb, hpred⟩
  have hsplit : db.filter (rg_pred u last) =
      (db.filter (rg_pred u last)).take page_size ++
      (db.filter (rg_pred u last)).drop page_size :=
    (List.take_append_drop _ _).symm
  have happ : (((db.filter (rg_pred u last)).take page_size) ++
      ((db.filter (rg_pred u last)).drop page_size)).Pairwise
      (fun a b => a.id < b.id) := by
    rw [← hsplit]
    exact hF
  have hsep := (List.pairwise_append.mp happ).2.2
  have hxdrop : x ∈ (db.filter (rg_pred u last)).drop page_size := by
    rw [hsplit] at hxF
    rcases List.mem_append.mp hxF with h | h
    · exact absurd h hxnot
    · exact h
  exact hsep ((rg_query db u last).getLast hb) (List.getLast_mem hb) x hxdrop

/-- Every row of the (nonempty) query has id at most the last row's id. -/
theorem rg_query_le_last (db : List PointRec) (u : String) (last : Nat)
    (hsort : db.Pairwise (fun a b => a.id < b.id))
    (hb : rg_query db u last ≠ []) :
    ∀ x ∈ rg_query db u last, x.id ≤ ((rg_query db u last).getLast hb).id :=
  getLast_id_max _ hb (rg_query_pairwise db u last hsort)

/-- The cursor strictly advances: the query's last row lies beyond the
cursor. -/
theorem rg_query_last_gt (db : List PointRec) (u : String) (last : Nat)
    (hb : rg_query db u last ≠ []) :
    last < ((rg_query db u last).getLast hb).id := by
  have := (mem_rg_query db u last _ (List.getLast_mem hb)).2
  exact ((rg_pred_iff u last _).mp this).2

/-- One-step unfolding of the scan loop: empty page. -/
theorem rg_loop_eq_of_empty (g : ℚ → ℚ → GeoOutcome) (u : String)
    (db : List PointRec) (last : Nat) (hb : rg_query db u last = []) :
    reverse_geocode_points_loop g u db last = (db, TaskStatus.completed) := by
  unfold reverse_geocode_points_loop
  simp [hb]

/-- One-step unfolding of the scan loop: a page whose processing raises. -/
theorem rg_loop_eq_of_error (g : ℚ → ℚ → GeoOutcome) (u : String)
    (db : List PointRec) (last : Nat) (e : String)
    (he : rg_process_batch g (rg_query db u last) = Except.error e) :
    reverse_geocode_points_loop g u db last = (db, TaskStatus.failed) := by
  have hb : rg_query db u last ≠ [] := by
    intro h
    rw [h] at he
    exact absurd he (by simp [rg_process_batch])
  unfold reverse_geocode_points_loop
  simp [hb, he]

/-- One-step unfolding of the scan loop: a successfully processed page
commits its updates and recurses past the page's last id. -/
theorem rg_loop_eq_of_ok (g : ℚ → ℚ → GeoOutcome) (u : String)
    (db : List PointRec) (last : Nat) (ms : List (Nat × Option String))
    (hb : rg_query db u last ≠ [])
    (ho : rg_process_batch g (rg_query db u last) = Except.ok ms) :
    reverse_geocode_points_loop g u db last =
      reverse_geocode_points_loop g u (bulk_update_points db ms)
        (((rg_query db u last).getLast hb).id) := by
  conv_lhs => unfold reverse_geocode_points_loop
  simp [hb, ho]

/-- Composing an elementwise relation through a map. -/
theorem forall₂_map_compose {R T : PointRec → PointRec → Prop}
    (f : PointRec → PointRec) :
    ∀ {l res : List PointRec}, List.Forall₂ R (l.map f) res →
      (∀ a ∈ l, ∀ c, R (f a) c → T a c) → List.Forall₂ T l res := by
  intro l
  induction l with
  | nil =>
    intro res h _
    cases h
    exact List.Forall₂.nil
  | cons a tl ih =>
    intro res h himp
    rw [List.map_cons] at h
    cases h with
    | cons hR hrest =>
      exact List.Forall₂.cons
        (himp a (List.mem_cons_self a tl) _ hR)
        (ih hrest fun x hx c hc => himp x (List.mem_cons_of_mem a hx) c hc)

/-- The scan loop on a table with no row beyond the cursor: it stops at
once with status `completed` and the table unchanged. -/
theorem rg_loop_ok_spec_empty (g : ℚ → ℚ → GeoOutcome) (u : String)
    (db : List PointRec) (last : Nat)
    (hfil : db.filter (rg_pred u last) = []) :
    (reverse_geocode_points_loop g u db last).2 = TaskStatus.completed ∧
    List.Forall₂ (fun p q => sameCore p q ∧
        q.address = if rg_pred u last p = true then geoAddr (g p.lat p.lon)
          else p.address)
      db (reverse_geocode_points_loop g u db last).1 := by
  have hb : rg_query db u last = [] := by
    unfold rg_query
    rw [hfil]
    rfl
  rw [rg_loop_eq_of_empty g u db last hb]
  refine ⟨rfl, List.forall₂_same.mpr fun p hp => ?_⟩
  have hpf : rg_pred u last p = false := by
    cases hbp : rg_pred u last p with
    | false => rfl
    | true =>
      have hmem : p ∈ db.filter (rg_pred u last) :=
        List.mem_filter.mpr ⟨hp, hbp⟩
      rw [hfil] at hmem
      exact absurd hmem (List.not_mem_nil p)
  exact ⟨⟨rfl, rfl, rfl, rfl, rfl⟩, by rw [hpf]; simp⟩

/-- Correctness of the scan loop when no point beyond the cursor triggers
an unclassified geocoder failure: the loop finishes `completed`, touches
only the `address` column, writes the geocode result (possibly the null
address, for classified failures) into every row of the upload beyond the
cursor, and leaves every other row's address unchanged. -/
theorem rg_loop_ok_spec (g : ℚ → ℚ → GeoOutcome) (u : String) :
    ∀ (n : Nat) (db : List PointRec) (last : Nat),
      (db.filter (rg_pred u last)).length ≤ n →
      db.Pairwise (fun a b => a.id < b.id) →
      (∀ p ∈ db, rg_pred u last p = true → g p.lat p.lon ≠ GeoOutcome.fatal) →
      (reverse_geocode_points_loop g u db last).2 = TaskStatus.completed ∧
      List.Forall₂ (fun p q => sameCore p q ∧
          q.address = if rg_pred u last p = true then geoAddr (g p.lat p.lon)
            else p.address)
        db (reverse_geocode_points_loop g u db last).1 := by
  intro n
  induction n with
  | zero =>
    intro db last hlen hsort hnf
    exact rg_loop_ok_spec_empty g u db last
      (List.length_eq_zero.mp (Nat.le_zero.mp hlen))
  | succ n ih =>
    intro db last hlen hsort hnf
    by_cases hb : rg_query db u last = []
    · exact rg_loop_ok_spec_empty g u db last
        (rg_query_eq_nil_filter db u last hb)
    · have hnfb : ∀ q ∈ rg_query db u last, g q.lat q.lon ≠ GeoOutcome.fatal :=
        fun q hq => hnf q (mem_rg_query db u last q hq).1
          (mem_rg_query db u last q hq).2
      have ho := rg_process_batch_ok g _ hnfb
      rw [rg_loop_eq_of_ok g u db last _ hb ho]
      have hinj := pairwise_id_inj db hsort
      have hlastlt := rg_query_last_gt db u last hb
      have hLdb : (rg_query db u last).getLast hb ∈ db :=
        (mem_rg_query db u last _ (List.getLast_mem hb)).1
      have hLpred : rg_pred u last ((rg_query db u last).getLast hb) = true :=
        (mem_rg_query db u last _ (List.getLast_mem hb)).2
      have hbinj : ∀ x ∈ rg_query db u last, ∀ y ∈ rg_query db u last,
          x.id = y.id → x = y := fun x hx y hy hxy =>
        hinj x (mem_rg_query db u last x hx).1 y (mem_rg_query db u last y hy).1 hxy
      have himp : ∀ x ∈ db,
          rg_pred u ((rg_query db u last).getLast hb).id x = true →
          rg_pred u last x = true := by
        intro x _ hx
        rw [rg_pred_iff] at hx ⊢
        exact ⟨hx.1, Nat.lt_trans hlastlt hx.2⟩
      have hsort2 : (bulk_update_points db
          ((rg_query db u last).map fun q =>
            (q.id, geoAddr (g q.lat q.lon)))).Pairwise
          (fun a b => a.id < b.id) := by
        unfold bulk_update_points
        rw [List.pairwise_map]
        exact hsort.imp fun {a b} h => by
          rw [(apply_mapping_core _ a).1, (apply_mapping_core _ b).1]
          exact h
      have hlen2 : ((bulk_update_points db
          ((rg_query db u last).map fun q =>
            (q.id, geoAddr (g q.lat q.lon)))).filter
          (rg_pred u (((rg_query db u last).getLast hb).id))).length ≤ n := by
        unfold bulk_update_points
        rw [length_filter_map_eq (apply_mapping _) _ (rg_pred_apply_mapping u _ _) db]
        have hLq : rg_pred u (((rg_query db u last).getLast hb).id)
            ((rg_query db u last).getLast hb) = false := by
          unfold rg_pred
          have : decide ((((rg_query db u last).getLast hb).id <
              ((rg_query db u last).getLast hb).id)) = false :=
            decide_eq_false (by omega)
          rw [this, Bool.and_false]
        have hlt := length_filter_lt_of_mem db (rg_pred u last)
          (rg_pred u (((rg_query db u last).getLast hb).id)) himp
          ((rg_query db u last).getLast hb) hLdb hLpred hLq
        omega
      have hnf2 : ∀ p2 ∈ bulk_update_points db
          ((rg_query db u last).map fun q => (q.id, geoAddr (g q.lat q.lon))),
          rg_pred u (((rg_query db u last).getLast hb).id) p2 = true →
          g p2.lat p2.lon ≠ GeoOutcome.fatal := by
        intro p2 hp2 hpred2
        obtain ⟨p, hp, rfl⟩ := List.mem_map.mp hp2
        rw [rg_pred_apply_mapping] at hpred2
        have hcore := apply_mapping_core
          ((rg_query db u last).map fun q => (q.id, geoAddr (g q.lat q.lon))) p
        rw [hcore.2.2.1, hcore.2.2.2.1]
        exact hnf p hp (himp p hp hpred2)
      obtain ⟨hst2, hfa2⟩ := ih _ _ hlen2 hsort2 hnf2
      refine ⟨hst2, ?_⟩
      unfold bulk_update_points at hfa2
      refine forall₂_map_compose _ hfa2 ?_
      intro p hp r hR
      obtain ⟨hcoreR, haddrR⟩ := hR
      have hcoreP := apply_mapping_core
        ((rg_query db u last).map fun q => (q.id, geoAddr (g q.lat q.lon))) p
      refine ⟨⟨hcoreR.1.trans hcoreP.1, hcoreR.2.1.trans hcoreP.2.1,
        hcoreR.2.2.1.trans hcoreP.2.2.1,
        hcoreR.2.2.2.1.trans hcoreP.2.2.2.1,
        hcoreR.2.2.2.2.trans hcoreP.2.2.2.2⟩, ?_⟩
      rw [rg_pred_apply_mapping] at haddrR
      by_cases hpred : rg_pred u last p = true
      · rw [if_pos hpred]
        by_cases hmem : p ∈ rg_query db u last
        · have hlook : ((rg_query db u last).map fun q =>
              (q.id, geoAddr (g q.lat q.lon))).lookup p.id =
              some (geoAddr (g p.lat p.lon)) :=
            lookup_map_of_mem _ _ hbinj p hmem
          have hfp := apply_mapping_of_lookup_some _ p _ hlook
          have hple := rg_query_le_last db u last hsort hb p hmem
          have hpredL : rg_pred u (((rg_query db u last).getLast hb).id) p
              = false := by
            unfold rg_pred
            have : decide ((((rg_query db u last).getLast hb).id < p.id))
                = false := decide_eq_false (by omega)
            rw [this, Bool.and_false]
          rw [hpredL] at haddrR
          simp only [Bool.false_eq_true, if_false] at haddrR
          rw [haddrR, hfp]
        · have hgt := rg_query_separation db u last hsort hb p hpred hp hmem
          have hlook : ((rg_query db u last).map fun q =>
              (q.id, geoAddr (g q.lat q.lon))).lookup p.id = none := by
            apply lookup_map_of_not_mem
            intro q hq hqp
            exact hmem ((hinj q (mem_rg_query db u last q hq).1 p hp hqp) ▸ hq)
          have hfp := apply_mapping_of_lookup_none _ p hlook
          have hpredL : rg_pred u (((rg_query db u last).getLast hb).id) p
              = true := by
            rw [rg_pred_iff]
            exact ⟨((rg_pred_iff u last p).mp hpred).1, hgt⟩
          rw [hpredL] at haddrR
          simp only [if_true] at haddrR
          rw [haddrR, hfp]
      · rw [if_neg hpred]
        have hpredf : rg_pred u last p = false := by
          cases hq : rg_pred u last p with
          | false => rfl
          | true => exact absurd hq hpred
        have hmem : p ∉ rg_query db u last := fun hm =>
          hpred (mem_rg_query db u last p hm).2
        have hlook : ((rg_query db u last).map fun q =>
            (q.id, geoAddr (g q.lat q.lon))).lookup p.id = none := by
          apply lookup_map_of_not_mem
          intro q hq hqp
          exact hmem ((hinj q (mem_rg_query db u last q hq).1 p hp hqp) ▸ hq)
        have hfp := apply_mapping_of_lookup_none _ p hlook
        have hpredL : rg_pred u (((rg_query db u last).getLast hb).id) p
            = false := by
          cases hq : rg_pred u (((rg_query db u last).getLast hb).id) p with
          | false => rfl
          | true => exact absurd (himp p hp hq) hpred
        rw [hpredL] at haddrR
        simp only [Bool.false_eq_true, if_false] at haddrR
        rw [haddrR, hfp]

/-- Behaviour of the scan loop when some point of the upload beyond the
cursor triggers an unclassified geocoder failure: the loop terminates with
status `failed`, and no such fatal point's address is ever written (its
batch aborts before its commit). -/
theorem rg_loop_fatal_spec (g : ℚ → ℚ → GeoOutcome) (u : String) :
    ∀ (n : Nat) (db : List PointRec) (last : Nat),
      (db.filter (rg_pred u last)).length ≤ n →
      db.Pairwise (fun a b => a.id < b.id) →
      (∃ p ∈ db, rg_pred u last p = true ∧ g p.lat p.lon = GeoOutcome.fatal) →
      (reverse_geocode_points_loop g u db last).2 = TaskStatus.failed ∧
      List.Forall₂ (fun p q => sameCore p q ∧
          (g p.lat p.lon = GeoOutcome.fatal → q.address = p.address))
        db (reverse_geocode_points_loop g u db last).1 := by
  intro n
  induction n with
  | zero =>
    intro db last hlen hsort hex
    obtain ⟨p0, hp0, hpred0, _⟩ := hex
    have hfil : db.filter (rg_pred u last) = [] :=
      List.length_eq_zero.mp (Nat.le_zero.mp hlen)
    have : p0 ∈ db.filter (rg_pred u last) :=
      List.mem_filter.mpr ⟨hp0, hpred0⟩
    rw [hfil] at this
    exact absurd this (List.not_mem_nil p0)
  | succ n ih =>
    intro db last hlen hsort hex
    by_cases hb : rg_query db u last = []
    · obtain ⟨p0, hp0, hpred0, _⟩ := hex
      have hfil := rg_query_eq_nil_filter db u last hb
      have : p0 ∈ db.filter (rg_pred u last) :=
        List.mem_filter.mpr ⟨hp0, hpred0⟩
      rw [hfil] at this
      exact absurd this (List.not_mem_nil p0)
    · rcases hpb : rg_process_batch g (rg_query db u last) with e | ms
      · rw [rg_loop_eq_of_error g u db last e hpb]
        exact ⟨rfl, List.forall₂_same.mpr fun p _ =>
          ⟨⟨rfl, rfl, rfl, rfl, rfl⟩, fun _ => rfl⟩⟩
      · obtain ⟨hnfb, hms⟩ := rg_process_batch_ok_inv g _ ms hpb
        subst hms
        rw [rg_loop_eq_of_ok g u db last _ hb hpb]
        have hinj := pairwise_id_inj db hsort
        have hlastlt := rg_query_last_gt db u last hb
        have hLdb : (rg_query db u last).getLast hb ∈ db :=
          (mem_rg_query db u last _ (List.getLast_mem hb)).1
        have hLpred : rg_pred u last ((rg_query db u last).getLast hb) = true :=
          (mem_rg_query db u last _ (List.getLast_mem hb)).2
        have himp : ∀ x ∈ db,
            rg_pred u ((rg_query db u last).getLast hb).id x = true →
            rg_pred u last x = true := by
          intro x _ hx
          rw [rg_pred_iff] at hx ⊢
          exact ⟨hx.1, Nat.lt_trans hlastlt hx.2⟩
        have hsort2 : (bulk_update_points db
            ((rg_query db u last).map fun q =>
              (q.id, geoAddr (g q.lat q.lon)))).Pairwise
            (fun a b => a.id < b.id) := by
          unfold bulk_update_points
          rw [List.pairwise_map]
          exact hsort.imp fun {a b} h => by
            rw [(apply_mapping_core _ a).1, (apply_mapping_core _ b).1]
            exact h
        have hlen2 : ((bulk_update_points db
            ((rg_query db u last).map fun q =>
              (q.id, geoAddr (g q.lat q.lon)))).filter
            (rg_pred u (((rg_query db u last).getLast hb).id))).length ≤ n := by
          unfold bulk_update_points
          rw [length_filter_map_eq (apply_mapping _) _
            (rg_pred_apply_mapping u _ _) db]
          have hLq : rg_pred u (((rg_query db u last).getLast hb).id)
              ((rg_query db u last).getLast hb) = false := by
            unfold rg_pred
            have : decide ((((rg_query db u last).getLast hb).id <
                ((rg_query db u last).getLast hb).id)) = false :=
              decide_eq_false (by omega)
            rw [this, Bool.and_false]
          have hlt := length_filter_lt_of_mem db (rg_pred u last)
            (rg_pred u (((rg_query db u last).getLast hb).id)) himp
            ((rg_query db u last).getLast hb) hLdb hLpred hLq
          omega
        obtain ⟨p0, hp0, hpred0, hfat0⟩ := hex
        have hp0nb : p0 ∉ rg_query db u last := fun hm => hnfb p0 hm hfat0
        have hgt0 := rg_query_separation db u last hsort hb p0 hpred0 hp0 hp0nb
        have hlook0 : ((rg_query db u last).map fun q =>
            (q.id, geoAddr (g q.lat q.lon))).lookup p0.id = none := by
          apply lookup_map_of_not_mem
          intro q hq hqp
          exact hp0nb ((hinj q (mem_rg_query db u last q hq).1 p0 hp0 hqp) ▸ hq)
        have hfp0 := apply_mapping_of_lookup_none _ p0 hlook0
        have hex2 : ∃ p2 ∈ bulk_update_points db
            ((rg_query db u last).map fun q => (q.id, geoAddr (g q.lat q.lon))),
            rg_pred u (((rg_query db u last).getLast hb).id) p2 = true ∧
            g p2.lat p2.lon = GeoOutcome.fatal := by
          refine ⟨p0, ?_, ?_, hfat0⟩
          · unfold bulk_update_points
            have := List.mem_map_of_mem
              (apply_mapping ((rg_query db u last).map fun q =>
                (q.id, geoAddr (g q.lat q.lon)))) hp0
            rwa [hfp0] at this
          · rw [rg_pred_iff]
            exact ⟨((rg_pred_iff u last p0).mp hpred0).1, hgt0⟩
        obtain ⟨hst2, hfa2⟩ := ih _ _ hlen2 hsort2 hex2
        refine ⟨hst2, ?_⟩
        unfold bulk_update_points at hfa2
        refine forall₂_map_compose _ hfa2 ?_
        intro p hp r hR
        obtain ⟨hcoreR, haddrR⟩ := hR
        have hcoreP := apply_mapping_core
          ((rg_query db u last).map fun q => (q.id, geoAddr (g q.lat q.lon))) p
        refine ⟨⟨hcoreR.1.trans hcoreP.1, hcoreR.2.1.trans hcoreP.2.1,
          hcoreR.2.2.1.trans hcoreP.2.2.1,
          hcoreR.2.2.2.1.trans hcoreP.2.2.2.1,
          hcoreR.2.2.2.2.trans hcoreP.2.2.2.2⟩, ?_⟩
        intro hfat
        have hmem : p ∉ rg_query db u last := fun hm => hnfb p hm hfat
        have hlook : ((rg_query db u last).map fun q =>
            (q.id, geoAddr (g q.lat q.lon))).lookup p.id = none := by
          apply lookup_map_of_not_mem
          intro q hq hqp
          exact hmem ((hinj q (mem_rg_query db u last q hq).1 p hp hqp) ▸ hq)
        have hfp := apply_mapping_of_lookup_none _ p hlook
        rw [hfp] at haddrR
        exact haddrR hfat

/-- Weakening an elementwise relation using membership. -/
theorem forall₂_imp_mem {R S : PointRec → PointRec → Prop} :
    ∀ {l res : List PointRec}, List.Forall₂ R l res →
      (∀ a ∈ l, ∀ c, R a c → S a c) → List.Forall₂ S l res := by
  intro l
  induction l with
  | nil =>
    intro res h _
    cases h
    exact List.Forall₂.nil
  | cons a tl ih =>
    intro res h himp
    cases h with
    | cons hR hrest =>
      exact List.Forall₂.cons (himp a (List.mem_cons_self a tl) _ hR)
        (ih hrest fun x hx c hc => himp x (List.mem_cons_of_mem a hx) c hc)

/-- C5: when the geocoder produces only classified outcomes (success,
no-location, timeout, service error) for the upload's points, the scan
completes: the `reverse` task is marked `completed`, every point of the
upload receives exactly its geocode result as address — in particular the
null/unresolved address for timeouts and service errors — and no other
row is touched.  A classified per-point failure is never pipeline-fatal. -/
theorem reverse_geocode_points_classified_failures_not_fatal
    (g : ℚ → ℚ → GeoOutcome) (u : String) (db : List PointRec)
    (tasks : List TaskRec)
    (hsort : db.Pairwise (fun a b => a.id < b.id))
    (hpos : ∀ p ∈ db, 0 < p.id)
    (hnf : ∀ p ∈ db, p.upload_uuid = u → g p.lat p.lon ≠ GeoOutcome.fatal) :
    (reverse_geocode_points g u db tasks).2 =
      mark_reverse_task u TaskStatus.completed tasks ∧
    List.Forall₂ (fun p q => sameCore p q ∧
        q.address = if p.upload_uuid = u then geoAddr (g p.lat p.lon)
          else p.address)
      db (reverse_geocode_points g u db tasks).1 := by
  have hnf0 : ∀ p ∈ db, rg_pred u 0 p = true →
      g p.lat p.lon ≠ GeoOutcome.fatal :=
    fun p hp hpred => hnf p hp ((rg_pred_iff u 0 p).mp hpred).1
  obtain ⟨hst, hfa⟩ := rg_loop_ok_spec g u
    (db.filter (rg_pred u 0)).length db 0 (le_refl _) hsort hnf0
  constructor
  · show mark_reverse_task u (reverse_geocode_points_loop g u db 0).2 tasks = _
    rw [hst]
  · show List.Forall₂ _ db (reverse_geocode_points_loop g u db 0).1
    refine forall₂_imp_mem hfa ?_
    intro p hp r hR
    obtain ⟨hcore, haddr⟩ := hR
    refine ⟨hcore, ?_⟩
    by_cases hu : p.upload_uuid = u
    · rw [if_pos hu]
      have hpred : rg_pred u 0 p = true :=
        (rg_pred_iff u 0 p).mpr ⟨hu, hpos p hp⟩
      rw [hpred] at haddr
      simpa using haddr
    · rw [if_neg hu]
      have hpred : rg_pred u 0 p = false := by
        cases hq : rg_pred u 0 p with
        | false => rfl
        | true => exact absurd ((rg_pred_iff u 0 p).mp hq).1 hu
      rw [hpred] at haddr
      simpa using haddr

/-- Witness for C5 at the concrete fixture: three points, the middle one
hitting a classified service error; the reverse task completes and that
point keeps the null address. -/
theorem reverse_geocode_points_classified_failures_not_fatal_witness :
    (reverse_geocode_points wGeo "u" wPoints wRunTasks).2 =
      mark_reverse_task "u" TaskStatus.completed wRunTasks ∧
    List.Forall₂ (fun p q => sameCore p q ∧
        q.address = if p.upload_uuid = "u" then geoAddr (wGeo p.lat p.lon)
          else p.address)
      wPoints (reverse_geocode_points wGeo "u" wPoints wRunTasks).1 :=
  reverse_geocode_points_classified_failures_not_fatal wGeo "u" wPoints
    wRunTasks (by decide) (by decide) (by decide)

/-- C8: if the full scan of the upload's points completes (no unclassified
geocoder failure), the `reverse` task is marked `completed`; if an
unclassified error terminates the scan early, the `reverse` task is marked
`failed`, the pipeline stops, and no fatal point ever has its address
written. -/
theorem reverse_geocode_points_outcome (g : ℚ → ℚ → GeoOutcome) (u : String)
    (db : List PointRec) (tasks : List TaskRec)
    (hsort : db.Pairwise (fun a b => a.id < b.id))
    (hpos : ∀ p ∈ db, 0 < p.id) :
    ((∀ p ∈ db, p.upload_uuid = u → g p.lat p.lon ≠ GeoOutcome.fatal) →
      (reverse_geocode_points g u db tasks).2 =
        mark_reverse_task u TaskStatus.completed tasks) ∧
    ((∃ p ∈ db, p.upload_uuid = u ∧ g p.lat p.lon = GeoOutcome.fatal) →
      (reverse_geocode_points g u db tasks).2 =
        mark_reverse_task u TaskStatus.failed tasks ∧
      List.Forall₂ (fun p q => sameCore p q ∧
          (g p.lat p.lon = GeoOutcome.fatal → q.address = p.address))
        db (reverse_geocode_points g u db tasks).1) := by
  constructor
  · intro hnf
    exact (reverse_geocode_points_classified_failures_not_fatal g u db tasks
      hsort hpos hnf).1
  · rintro ⟨p0, hp0, hu0, hf0⟩
    have hex : ∃ p ∈ db, rg_pred u 0 p = true ∧
        g p.lat p.lon = GeoOutcome.fatal :=
      ⟨p0, hp0, (rg_pred_iff u 0 p0).mpr ⟨hu0, hpos p0 hp0⟩, hf0⟩
    obtain ⟨hst, hfa⟩ := rg_loop_fatal_spec g u
      (db.filter (rg_pred u 0)).length db 0 (le_refl _) hsort hex
    constructor
    · show mark_reverse_task u (reverse_geocode_points_loop g u db 0).2 tasks = _
      rw [hst]
    · show List.Forall₂ _ db (reverse_geocode_points_loop g u db 0).1
      exact hfa

/-- Witness for C8 at the concrete fixture: an unclassified geocoder
exception on the middle point marks the reverse task `failed`. -/
theorem reverse_geocode_points_outcome_witness :
    (reverse_geocode_points wGeoFatal "u" wPoints wRunTasks).2 =
      mark_reverse_task "u" TaskStatus.failed wRunTasks :=
  ((reverse_geocode_points_outcome wGeoFatal "u" wPoints wRunTasks
      (by decide) (by decide)).2 (by decide)).1

/-- C7: the haversine distance function is symmetric — for every two
coordinate pairs A and B, `distance(A,B) = distance(B,A)` — and for every
coordinate pair A, `distance(A,A) = 0`. -/
theorem haversine_np_symm_and_self_zero :
    (∀ lon1 lat1 lon2 lat2 : ℝ,
      haversine_np lon1 lat1 lon2 lat2 = haversine_np lon2 lat2 lon1 lat1) ∧
    (∀ lon lat : ℝ, haversine_np lon lat lon lat = 0) := by
  constructor
  · intro lon1 lat1 lon2 lat2
    simp only [haversine_np]
    have h1 : ∀ x y : ℝ,
        Real.sin ((x - y) / 2) ^ 2 = Real.sin ((y - x) / 2) ^ 2 := by
      intro x y
      rw [show (x - y) / 2 = -((y - x) / 2) by ring, Real.sin_neg]
      ring
    rw [h1 (deg2rad lat2) (deg2rad lat1), h1 (deg2rad lon2) (deg2rad lon1),
      mul_comm (Real.cos (deg2rad lat1)) (Real.cos (deg2rad lat2))]
  · intro lon lat
    simp [haversine_np, sub_self]

/-- C10: the geocoder client returns the service's address string when a
location is found, the literal string "Address not found" (not null) when
the service responds with no location, and null (`none`) exactly when the
call raises a classified timeout or service error. -/
theorem reverse_geocode_classification (g : ℚ → ℚ → GeoOutcome)
    (lat lon : ℚ) :
    (∀ a, g lat lon = GeoOutcome.located a →
      reverse_geocode g lat lon = Except.ok (some a)) ∧
    (g lat lon = GeoOutcome.noLocation →
      reverse_geocode g lat lon = Except.ok (some "Address not found")) ∧
    (reverse_geocode g lat lon = Except.ok none ↔
      g lat lon = GeoOutcome.timedOut ∨ g lat lon = GeoOutcome.serviceError) := by
  rcases hg : g lat lon <;> simp [reverse_geocode, hg]

/-- Witness for C10 at a concrete oracle: a classified service error
yields the null address. -/
theorem reverse_geocode_classification_witness :
    reverse_geocode (fun _ _ => GeoOutcome.serviceError) 0 0 = Except.ok none :=
  (reverse_geocode_classification (fun _ _ => GeoOutcome.serviceError) 0 0).2.2.mpr
    (Or.inr rfl)

/-- C9: both finalization updates filter on status = `running`, so a task
whose status is already terminal (`completed` or `failed`) is never
overwritten by either pipeline's finalizer, however late or duplicated the
invocation. -/
theorem finalizers_preserve_terminal_status (results : List BatchResult)
    (u : String) (st : TaskStatus) (t : TaskRec)
    (hterm : t.status = TaskStatus.completed ∨ t.status = TaskStatus.failed) :
    finalize_distance_row u t = t ∧ mark_reverse_row u st t = t ∧
    (∀ tasks : List TaskRec, t ∈ tasks →
      t ∈ finalize_distance_calculations results u tasks ∧
      t ∈ mark_reverse_task u st tasks) := by
  have h1 : finalize_distance_row u t = t := by
    unfold finalize_distance_row
    rcases hterm with h | h <;> simp [h]
  have h2 : mark_reverse_row u st t = t := by
    unfold mark_reverse_row
    rcases hterm with h | h <;> simp [h]
  refine ⟨h1, h2, fun tasks ht => ⟨?_, ?_⟩⟩
  · have := List.mem_map_of_mem (finalize_distance_row u) ht
    rw [h1] at this
    exact this
  · have := List.mem_map_of_mem (mark_reverse_row u st) ht
    rw [h2] at this
    exact this

/-- Witness for C9 at a concrete failed task. -/
theorem finalizers_preserve_terminal_status_witness :
    finalize_distance_row "u"
        ⟨1, TaskType.distance, TaskStatus.failed, "u"⟩ =
      ⟨1, TaskType.distance, TaskStatus.failed, "u"⟩ ∧
    mark_reverse_row "u" TaskStatus.completed
        ⟨1, TaskType.distance, TaskStatus.failed, "u"⟩ =
      ⟨1, TaskType.distance, TaskStatus.failed, "u"⟩ ∧
    (∀ tasks : List TaskRec,
      ⟨1, TaskType.distance, TaskStatus.failed, "u"⟩ ∈ tasks →
      (⟨1, TaskType.distance, TaskStatus.failed, "u"⟩ : TaskRec) ∈
        finalize_distance_calculations [] "u" tasks ∧
      (⟨1, TaskType.distance, TaskStatus.failed, "u"⟩ : TaskRec) ∈
        mark_reverse_task "u" TaskStatus.completed tasks) :=
  finalizers_preserve_terminal_status [] "u" TaskStatus.completed
    ⟨1, TaskType.distance, TaskStatus.failed, "u"⟩ (Or.inr rfl)

/-- C2 counterexample: the fan-in callback does not mark the task `failed`
when a batch unit reports unrecoverable failure — it marks it `completed`
regardless of the results it receives. -/
theorem finalize_ignores_batch_failures :
    finalize_distance_calculations [BatchResult.failure] "u"
        [⟨1, TaskType.distance, TaskStatus.running, "u"⟩] =
      [⟨1, TaskType.distance, TaskStatus.completed, "u"⟩] ∧
    finalize_distance_calculations [BatchResult.failure] "u"
        [⟨1, TaskType.distance, TaskStatus.running, "u"⟩] ≠
      [⟨1, TaskType.distance, TaskStatus.failed, "u"⟩] := by
  constructor
  · rfl
  · intro h
    have := List.head_eq_of_cons_eq h
    simp [finalize_distance_calculations, finalize_distance_row] at this

/-- C2 amended: the fan-in callback ignores the batch results entirely —
it marks the upload's still-running `distance` task `completed`
unconditionally and never introduces a `failed` status. -/
theorem finalize_marks_completed_unconditionally (results : List BatchResult)
    (u : String) (tasks : List TaskRec) :
    finalize_distance_calculations results u tasks =
      finalize_distance_calculations [] u tasks ∧
    (∀ t ∈ tasks, t.task_type = TaskType.distance →
      t.status = TaskStatus.running → t.upload_uuid = u →
      { t with status := TaskStatus.completed } ∈
        finalize_distance_calculations results u tasks) ∧
    (∀ t : TaskRec, (finalize_distance_row u t).status = TaskStatus.failed ↔
      t.status = TaskStatus.failed) := by
  refine ⟨rfl, fun t ht h1 h2 h3 => ?_, fun t => ?_⟩
  · have hrow : finalize_distance_row u t = { t with status := TaskStatus.completed } := by
      unfold finalize_distance_row
      rw [if_pos ⟨h1, h2, h3⟩]
    have := List.mem_map_of_mem (finalize_distance_row u) ht
    rw [hrow] at this
    exact this
  · unfold finalize_distance_row
    by_cases hc : t.task_type = TaskType.distance ∧ t.status = TaskStatus.running ∧
        t.upload_uuid = u
    · rw [if_pos hc]
      simp [hc.2.1]
    · rw [if_neg hc]

/-- Witness for C2's amended theorem at a concrete running distance task
and a failing batch result. -/
theorem finalize_marks_completed_unconditionally_witness :
    ({ id := 1, task_type := TaskType.distance, status := TaskStatus.completed,
       upload_uuid := "u" } : TaskRec) ∈
      finalize_distance_calculations [BatchResult.failure] "u"
        [⟨1, TaskType.distance, TaskStatus.running, "u"⟩] :=
  (finalize_marks_completed_unconditionally [BatchResult.failure] "u"
      [⟨1, TaskType.distance, TaskStatus.running, "u"⟩]).2.1
    ⟨1, TaskType.distance, TaskStatus.running, "u"⟩ (by simp) rfl rfl rfl

/-- C3 counterexample: on a task table holding a single `completed` task
(so that the two per-type Tasks do not both exist), the code computes
overall status "completed" while the specification's rule computes
"running". -/
theorem overall_status_single_task_counterexample :
    overall_status [⟨1, TaskType.distance, TaskStatus.completed, "u"⟩] =
      "completed" ∧
    spec_overall_status [⟨1, TaskType.distance, TaskStatus.completed, "u"⟩] =
      "running" ∧
    ("completed" : String) ≠ "running" := by
  refine ⟨rfl, rfl, by decide⟩

/-- C3 amended: overall status is `failed` iff at least one task is
`failed` (overriding any completed sibling); else `completed` iff the
task list is non-empty and every task is `completed` — the code does not
additionally require both per-type Tasks to exist; else `running`,
including the zero-task case. -/
theorem overall_status_characterisation (tasks : List TaskRec) :
    (overall_status tasks = "failed" ↔
      ∃ t ∈ tasks, t.status = TaskStatus.failed) ∧
    (overall_status tasks = "completed" ↔
      tasks ≠ [] ∧ ∀ t ∈ tasks, t.status = TaskStatus.completed) ∧
    (overall_status tasks = "running" ↔
      (¬∃ t ∈ tasks, t.status = TaskStatus.failed) ∧
      ¬(tasks ≠ [] ∧ ∀ t ∈ tasks, t.status = TaskStatus.completed)) := by
  unfold overall_status
  by_cases h1 : (tasks.any fun t => t.status == TaskStatus.failed) = true
  · rw [if_pos h1]
    simp only [List.any_eq_true, beq_iff_eq] at h1
    obtain ⟨t0, ht0, hf0⟩ := h1
    refine ⟨⟨fun _ => ⟨t0, ht0, hf0⟩, fun _ => rfl⟩, ?_, ?_⟩
    · constructor
      · intro h
        exact absurd h (by decide)
      · rintro ⟨_, hall⟩
        have := hall t0 ht0
        rw [hf0] at this
        exact absurd this (by decide)
    · constructor
      · intro h
        exact absurd h (by decide)
      · rintro ⟨hno, _⟩
        exact absurd ⟨t0, ht0, hf0⟩ hno
  · rw [if_neg h1]
    have h1p : ¬∃ t ∈ tasks, t.status = TaskStatus.failed := by
      simpa [List.any_eq_true] using h1
    by_cases h2 : ((tasks.all fun t => t.status == TaskStatus.completed) &&
        !tasks.isEmpty) = true
    · rw [if_pos h2]
      simp only [Bool.and_eq_true, List.all_eq_true, beq_iff_eq,
        Bool.not_eq_true', List.isEmpty_eq_false_iff_exists_mem] at h2
      obtain ⟨hall, hne⟩ := h2
      have hne2 : tasks ≠ [] := by
        obtain ⟨x, hx⟩ := hne
        intro h
        rw [h] at hx
        exact absurd hx (List.not_mem_nil x)
      refine ⟨?_, ⟨fun _ => ⟨hne2, hall⟩, fun _ => rfl⟩, ?_⟩
      · constructor
        · intro h
          exact absurd h (by decide)
        · rintro ⟨t0, ht0, hf0⟩
          have := hall t0 ht0
          rw [hf0] at this
          exact absurd this (by decide)
      · constructor
        · intro h
          exact absurd h (by decide)
        · rintro ⟨_, hnc⟩
          exact absurd ⟨hne2, hall⟩ hnc
    · rw [if_neg h2]
      have h2p : ¬(tasks ≠ [] ∧ ∀ t ∈ tasks, t.status = TaskStatus.completed) := by
        rintro ⟨hne, hall⟩
        apply h2
        simp only [Bool.and_eq_true, List.all_eq_true, beq_iff_eq,
          Bool.not_eq_true']
        refine ⟨hall, ?_⟩
        cases tasks with
        | nil => exact absurd rfl hne
        | cons a tl => rfl
      refine ⟨?_, ?_, by simp [h1p, h2p]⟩
      · constructor
        · intro h
          exact absurd h (by decide)
        · intro h
          exact absurd h h1p
      · constructor
        · intro h
          exact absurd h (by decide)
        · intro h
          exact absurd h h2p

/-- Witness for C3's amended theorem: the empty task table reduces to
overall status "running". -/
theorem overall_status_characterisation_witness :
    overall_status ([] : List TaskRec) = "running" :=
  (overall_status_characterisation []).2.2.mpr (by simp)

/-- C4: the pair-generation step, run for upload "u1" on a table that also
holds a point of upload "u2", creates 3 Distance rows instead of the
claimed N·(N−1)/2 = 1 for N = 2: the SQL self-join restricts only side `a`
of the join to the upload, so the upload's points are also paired with
every other upload's higher-id points, and the spurious rows carry
upload_uuid "u1". -/
theorem insert_distances_cross_upload_bug :
    (insert_distances [] wMixedPoints "u1").length = 3 ∧
    ((wMixedPoints.filter fun p => p.upload_uuid == "u1").length = 2) ∧
    2 * (2 - 1) / 2 = 1 ∧
    ((insert_distances [] wMixedPoints "u1").map fun r =>
        (r.name_a, r.name_b, r.upload_uuid)) =
      [("A", "B", "u1"), ("A", "C", "u1"), ("B", "C", "u1")] ∧
    (3 : Nat) ≠ 2 * (2 - 1) / 2 := by
  refine ⟨rfl, rfl, rfl, rfl, by decide⟩

/-- Membership in the `ran_tasks` accumulator of `process_file_tasks`. -/
theorem mem_ran_tasks_foldl (l : List TaskRec) :
    ∀ (acc : List String) (u : String),
      (u ∈ l.foldl
        (fun acc t => if t.upload_uuid ∈ acc then acc else acc ++ [t.upload_uuid])
        acc ↔ u ∈ acc ∨ ∃ t ∈ l, t.upload_uuid = u) := by
  induction l with
  | nil => simp
  | cons a tl ih =>
    intro acc u
    simp only [List.foldl_cons]
    by_cases h : a.upload_uuid ∈ acc
    · rw [if_pos h, ih]
      constructor
      · rintro (hu | ⟨t, ht, htu⟩)
        · exact Or.inl hu
        · exact Or.inr ⟨t, List.mem_cons_of_mem a ht, htu⟩
      · rintro (hu | ⟨t, ht, htu⟩)
        · exact Or.inl hu
        · rcases List.mem_cons.mp ht with rfl | ht2
          · exact Or.inl (htu ▸ h)
          · exact Or.inr ⟨t, ht2, htu⟩
    · rw [if_neg h, ih]
      constructor
      · rintro (hu | ⟨t, ht, htu⟩)
        · rcases List.mem_append.mp hu with hu2 | hu2
          · exact Or.inl hu2
          · refine Or.inr ⟨a, List.mem_cons_self a tl, ?_⟩
            have : u = a.upload_uuid := by simpa using hu2
            exact this.symm
        · exact Or.inr ⟨t, List.mem_cons_of_mem a ht, htu⟩
      · rintro (hu | ⟨t, ht, htu⟩)
        · exact Or.inl (List.mem_append.mpr (Or.inl hu))
        · rcases List.mem_cons.mp ht with rfl | ht2
          · exact Or.inl (List.mem_append.mpr (Or.inr (by simp [htu])))
          · exact Or.inr ⟨t, ht2, htu⟩

/-- The `ran_tasks` accumulator of `process_file_tasks` never collects a
duplicate. -/
theorem nodup_ran_tasks_foldl (l : List TaskRec) :
    ∀ acc : List String, acc.Nodup →
      (l.foldl
        (fun acc t => if t.upload_uuid ∈ acc then acc else acc ++ [t.upload_uuid])
        acc).Nodup := by
  induction l with
  | nil => intro acc h; simpa using h
  | cons a tl ih =>
    intro acc hacc
    simp only [List.foldl_cons]
    by_cases h : a.upload_uuid ∈ acc
    · rw [if_pos h]
      exact ih acc hacc
    · rw [if_neg h]
      refine ih _ ?_
      rw [List.nodup_append]
      exact ⟨hacc, List.nodup_singleton _, by simpa using h⟩

/-- C6: every invocation of the dispatcher marks exactly the `pending` and
`failed` tasks `running` (other tasks are untouched), and the list of
uploads it schedules contains, without duplicates, exactly the uploads
owning at least one `pending` or `failed` task — so processing is
scheduled at most once per distinct upload and never on account of a
`running` or `completed` task. -/
theorem process_file_tasks_spec (tasks : List TaskRec) :
    ((process_file_tasks tasks).1 = tasks.map dispatch_row) ∧
    (∀ t ∈ tasks,
      (t.status = TaskStatus.pending ∨ t.status = TaskStatus.failed) →
      { t with status := TaskStatus.running } ∈ (process_file_tasks tasks).1) ∧
    (∀ t ∈ tasks,
      (t.status = TaskStatus.running ∨ t.status = TaskStatus.completed) →
      t ∈ (process_file_tasks tasks).1) ∧
    (process_file_tasks tasks).2.Nodup ∧
    (∀ u, u ∈ (process_file_tasks tasks).2 ↔
      ∃ t ∈ tasks,
        (t.status = TaskStatus.pending ∨ t.status = TaskStatus.failed) ∧
        t.upload_uuid = u) := by
  refine ⟨rfl, fun t ht hpf => ?_, fun t ht hrc => ?_, ?_, fun u => ?_⟩
  · have hrow : dispatch_row t = { t with status := TaskStatus.running } := by
      unfold dispatch_row
      rw [if_pos hpf]
    have := List.mem_map_of_mem dispatch_row ht
    rw [hrow] at this
    exact this
  · have hrow : dispatch_row t = t := by
      unfold dispatch_row
      rcases hrc with h | h <;> rw [if_neg] <;> simp [h]
    have := List.mem_map_of_mem dispatch_row ht
    rw [hrow] at this
    exact this
  · exact nodup_ran_tasks_foldl _ [] List.nodup_nil
  · unfold process_file_tasks
    rw [mem_ran_tasks_foldl]
    simp only [List.not_mem_nil, false_or, List.mem_filter, decide_eq_true_eq]
    constructor
    · rintro ⟨t, ⟨ht, hpf⟩, htu⟩
      exact ⟨t, ht, hpf, htu⟩
    · rintro ⟨t, ht, hpf, htu⟩
      exact ⟨t, ⟨ht, hpf⟩, htu⟩

/-- Witness for C6 on the concrete table `wTasks`: the pending and failed
tasks of upload "u1" are marked running, upload "u1" is scheduled exactly
once, and upload "u2" (whose tasks are running/completed) is not
scheduled. -/
theorem process_file_tasks_spec_witness :
    ({ id := 1, task_type := TaskType.distance, status := TaskStatus.running,
       upload_uuid := "u1" } : TaskRec) ∈ (process_file_tasks wTasks).1 ∧
    (⟨4, TaskType.reverse, TaskStatus.completed, "u2"⟩ : TaskRec) ∈
      (process_file_tasks wTasks).1 ∧
    (process_file_tasks wTasks).2.Nodup ∧
    "u1" ∈ (process_file_tasks wTasks).2 :=
  ⟨(process_file_tasks_spec wTasks).2.1
      ⟨1, TaskType.distance, TaskStatus.pending, "u1"⟩ (by simp [wTasks])
      (Or.inl rfl),
   (process_file_tasks_spec wTasks).2.2.1
      ⟨4, TaskType.reverse, TaskStatus.completed, "u2"⟩ (by simp [wTasks])
      (Or.inr rfl),
   (process_file_tasks_spec wTasks).2.2.2.1,
   (process_file_tasks_spec wTasks).2.2.2.2 "u1" |>.mpr
      ⟨⟨1, TaskType.distance, TaskStatus.pending, "u1"⟩, by simp [wTasks],
        Or.inl rfl, rfl⟩⟩

/-- C1: evaluation of both pipelines on an Upload with zero points.  The
reverse-geocode pipeline marks its task `completed`, but the distance
pipeline generates zero pair rows, hence zero batches, and — because the
chord is only created when the batch list is non-empty (`if batch_tasks:`)
— `finalize_distance_calculations` never runs: the `distance` task stays
`running` forever, and the result query reports empty `points`/`links`
with overall status "running", not "completed" as the claim requires. -/
theorem zero_point_upload_distance_task_stuck :
    reverse_geocode_points wGeo "u" [] wRunTasks =
      ([], [⟨1, TaskType.reverse, TaskStatus.completed, "u"⟩,
            ⟨2, TaskType.distance, TaskStatus.running, "u"⟩]) ∧
    run_distance_pipeline [] []
        [⟨1, TaskType.reverse, TaskStatus.completed, "u"⟩,
         ⟨2, TaskType.distance, TaskStatus.running, "u"⟩] "u" =
      ([], [⟨1, TaskType.reverse, TaskStatus.completed, "u"⟩,
            ⟨2, TaskType.distance, TaskStatus.running, "u"⟩]) ∧
    (get_result [] []
        [⟨1, TaskType.reverse, TaskStatus.completed, "u"⟩,
         ⟨2, TaskType.distance, TaskStatus.running, "u"⟩] "u").status =
      "running" ∧
    (get_result [] []
        [⟨1, TaskType.reverse, TaskStatus.completed, "u"⟩,
         ⟨2, TaskType.distance, TaskStatus.running, "u"⟩] "u").points = [] ∧
    (get_result [] []
        [⟨1, TaskType.reverse, TaskStatus.completed, "u"⟩,
         ⟨2, TaskType.distance, TaskStatus.running, "u"⟩] "u").links = [] ∧
    ("running" : String) ≠ "completed" := by
  have h1 : reverse_geocode_points_loop wGeo "u" [] 0 =
      ([], TaskStatus.completed) :=
    rg_loop_eq_of_empty wGeo "u" [] 0 rfl
  have h3 : paginate_distance_batches [] "u" 0 = [] := by
    unfold paginate_distance_batches
    rfl
  refine ⟨?_, ?_, rfl, rfl, rfl, by decide⟩
  · show ((reverse_geocode_points_loop wGeo "u" [] 0).1,
      mark_reverse_task "u" (reverse_geocode_points_loop wGeo "u" [] 0).2
        wRunTasks) = _
    rw [h1]
    rfl
  · show (if (paginate_distance_batches [] "u" 0).isEmpty then
        ((insert_distances [] [] "u" : List DistanceRec),
          [(⟨1, TaskType.reverse, TaskStatus.completed, "u"⟩ : TaskRec),
           ⟨2, TaskType.distance, TaskStatus.running, "u"⟩])
      else _) = _
    rw [h3]
    rfl

end Dokka
